import Mathlib

/-!
Verification of the block-indexing and arrival-matching pipeline of
`seismic/cluster/cluster.py` (hiperseis).

The pipeline stages embedded here:
  - `_find_block` (BlockIndexer), embedded as `find_block`;
  - `process_event` (ArrivalExtractor), embedded as `processEvent`;
  - `process_many_events` (EventBatchProcessor), embedded as `processManyEvents`;
  - the `sort` command (DedupFilter), embedded as `dedup` / `dedupRun`;
  - the `match` command (PhaseMatcher), embedded as `matched_P` / `matched_S`.

Python floats are modelled as rationals (ℚ); Python ints as ℤ.  Python's
built-in `round` (round-half-to-even) is modelled exactly by `pyRound`.
Fallible code paths (an exception escaping the stage) are modelled with
`Except String`.
-/

namespace Cluster

/-- A key of the dedup/match stages: the (source_block, station_block) pair. -/
abbrev Key := ℤ × ℤ

/-- One output row, with the 12 fields of `column_names` in `cluster.py`,
in source order and with the source's field names. -/
structure Row where
  source_block : ℤ
  station_block : ℤ
  residual : ℚ
  event_number : ℤ
  source_longitude : ℚ
  source_latitude : ℚ
  source_depth : ℚ
  station_longitude : ℚ
  station_latitude : ℚ
  observed_tt : ℚ
  locations2degrees : ℚ
  P_or_S : ℤ
deriving DecidableEq, Repr

/-- The grouping key of a row, as used by the `sort` and `match` stages. -/
def rowKey (r : Row) : Key := (r.source_block, r.station_block)

/-- Python's built-in `round`: nearest integer, ties to the even integer. -/
def pyRound (q : ℚ) : ℤ :=
  let f := ⌊q⌋
  if q - f < 1 / 2 then f
  else if 1 / 2 < q - f then f + 1
  else if f % 2 = 0 then f else f + 1

/-- Longitude normalization of `_find_block`: `x = lon if lon > 0 else lon + 360.0`. -/
def lonNorm (lon : ℚ) : ℚ := if 0 < lon then lon else lon + 360

/-- Embedding of `_find_block(dx, dy, dz, nx, ny, lat, lon, z)` in `cluster.py`:
colatitude `y = 90 - lat`, normalized longitude, rounded cell indices
`i`, `j`, `k` and the flattened block number.  The final `int(...)` of the
source is the identity here since every quantity is already an integer. -/
def find_block (dx dy dz : ℚ) (nx ny : ℤ) (lat lon z : ℚ) : ℤ :=
  let y : ℚ := 90 - lat
  let x : ℚ := lonNorm lon
  let i : ℤ := pyRound (x / dx) + 1
  let j : ℤ := pyRound (y / dy) + 1
  let k : ℤ := pyRound (z / dz) + 1
  (k - 1) * nx * ny + (j - 1) * nx + i

/-- Spec-side block id (refinement comparison target), following the wording of
spec §4.1: `dx = 360/nx`, `dy = 180/ny`, longitude with 360 added when
`lon ≤ 0`, colatitude `90 - lat`, `i = round(lon_norm/dx)+1`,
`j = round(y/dy)+1`, `k = round(z/dz)+1`, and flattened id
`(k-1)*nx*ny + (j-1)*nx + i`. -/
def blockIdSpec (nx ny : ℤ) (dz : ℚ) (lat lon z : ℚ) : ℤ :=
  let dx : ℚ := 360 / (nx : ℚ)
  let dy : ℚ := 180 / (ny : ℚ)
  let lon_norm : ℚ := if lon ≤ 0 then lon + 360 else lon
  let i : ℤ := pyRound (lon_norm / dx) + 1
  let j : ℤ := pyRound ((90 - lat) / dy) + 1
  let k : ℤ := pyRound (z / dz) + 1
  (k - 1) * nx * ny + (j - 1) * nx + i

theorem lonNorm_eq_spec (lon : ℚ) :
    lonNorm lon = if lon ≤ 0 then lon + 360 else lon := by
  unfold lonNorm
  rcases le_or_lt lon 0 with h | h
  · rw [if_neg (not_lt.mpr h), if_pos h]
  · rw [if_pos h, if_neg (not_le.mpr h)]

/-- C3: for every latitude, longitude, depth and grid spec (nx, ny, dz), the
code's `_find_block`, called as `process_event` calls it (with `dx = 360/nx`
and `dy = 180/ny`), returns exactly the flattened id
`(k-1)*nx*ny + (j-1)*nx + i` of the spec's formula, where
`i = round(lon_norm/dx)+1`, `j = round((90-lat)/dy)+1`, `k = round(z/dz)+1`;
no bounds validation is performed, so an out-of-grid coordinate (depth 10^6 m
on the default 1440 x 720 grid with dz = 25) yields the large id 41472519841,
far beyond the id range `1440*720*800` of an 800-layer grid, rather than an
error. -/
theorem C3_block_formula :
    (∀ (nx ny : ℤ) (dz lat lon z : ℚ),
      find_block (360 / (nx : ℚ)) (180 / (ny : ℚ)) dz nx ny lat lon z =
        blockIdSpec nx ny dz lat lon z) ∧
    find_block (360 / (1440 : ℚ)) (180 / (720 : ℚ)) 25 1440 720 0 0 1000000 =
      41472519841 ∧
    1440 * 720 * 800 < find_block (360 / (1440 : ℚ)) (180 / (720 : ℚ)) 25
      1440 720 0 0 1000000 := by
  refine ⟨fun nx ny dz lat lon z => ?_,
    of_decide_eq_true (by with_unfolding_all rfl),
    of_decide_eq_true (by with_unfolding_all rfl)⟩
  unfold find_block blockIdSpec
  rw [lonNorm_eq_spec]

/-- C6 counterexample: at longitude 0 the code's normalization (`lon + 360`
when `lon ≤ 0`) yields exactly 360, which is not in the half-open interval
[0, 360), so the claim fails at `lon = 0`. -/
theorem C6_counterexample : lonNorm 0 = 360 ∧ ¬ lonNorm 0 < 360 := by
  constructor <;> norm_num [lonNorm]

/-- C6 (amended): for every longitude in [-180, 180], the normalized
longitude lies in the closed interval [0, 360] — in particular it is never
negative, so no negative value reaches the index formula — and it lies in
[0, 360) for every nonzero longitude; the bound 360 is attained exactly at
`lon = 0`. -/
theorem C6_lon_norm_range (lon : ℚ) (h1 : -180 ≤ lon) (h2 : lon ≤ 180) :
    0 ≤ lonNorm lon ∧ lonNorm lon ≤ 360 ∧ (lon ≠ 0 → lonNorm lon < 360) := by
  unfold lonNorm
  split
  · refine ⟨by linarith, by linarith, fun _ => by linarith⟩
  · rename_i h
    rw [not_lt] at h
    refine ⟨by linarith, by linarith, fun hne => ?_⟩
    have : lon < 0 := lt_of_le_of_ne h hne
    linarith

theorem C6_witness :
    (0 ≤ lonNorm (-17999 / 100) ∧ lonNorm (-17999 / 100) ≤ 360 ∧
      ((-17999 / 100 : ℚ) ≠ 0 → lonNorm (-17999 / 100) < 360)) ∧
    lonNorm (-17999 / 100) < 360 := by
  have h := C6_lon_norm_range (-17999 / 100) (by norm_num) (by norm_num)
  exact ⟨h, h.2.2 (by norm_num)⟩

/-! ## DedupFilter: the `sort` command

The `sort` command of `cluster.py` reads the gathered rows, sorts them by
`(source_block, station_block)`, groups by that key (pandas `groupby`
iterates the groups in ascending key order), keeps per group the first row
whose `observed_tt` equals the group median (`group[group[...] == med][:1]`),
and concatenates the kept rows (`pd.concat`, which raises when handed an
empty list, i.e. when the input has no rows at all).

`dedup` below embeds the whole-stage row transform: iterating the distinct
keys in ascending order and filtering the input by each key reproduces the
sort-then-group pipeline of the source (pandas `sort_values` uses an
unstable quicksort; the embedding takes the within-group order to be the
input order, which no theorem below depends on).  `dedupRun` adds the
`pd.concat` failure on empty input. -/

/-- Lexicographic order on keys, the pandas sort order for
`by=[source_block, station_block]`. -/
def keyLe (a b : Key) : Prop := a.1 < b.1 ∨ (a.1 = b.1 ∧ a.2 ≤ b.2)

instance : DecidableRel keyLe := fun a b => by unfold keyLe; infer_instance

instance : IsTotal Key keyLe := ⟨fun a b => by unfold keyLe; omega⟩

instance : IsTrans Key keyLe := ⟨fun a b c => by unfold keyLe; omega⟩

/-- Ascending key sort (the order in which pandas `groupby` yields groups). -/
def sortKeys (ks : List Key) : List Key := ks.insertionSort keyLe

/-- The group of rows carrying key `k`. -/
def groupFor (rows : List Row) (k : Key) : List Row :=
  rows.filter (fun r => decide (rowKey r = k))

/-- Median as pandas computes it: the middle value of the sorted list for an
odd count, the mean of the two middle values for an even count. -/
def medianQ (l : List ℚ) : ℚ :=
  let s := l.insertionSort (· ≤ ·)
  if l.length % 2 = 1 then s.getD (l.length / 2) 0
  else (s.getD (l.length / 2 - 1) 0 + s.getD (l.length / 2) 0) / 2

/-- Per-group selection of the source, `group[group[observed_tt] == med][:1]`:
the first row whose `observed_tt` equals the group median, or nothing when no
row matches the median exactly. -/
def pickRep (g : List Row) : List Row :=
  (g.filter (fun r =>
    decide (r.observed_tt = medianQ (g.map Row.observed_tt)))).take 1

/-- The distinct keys of the input in ascending order. -/
def dedupKeys (rows : List Row) : List Key := sortKeys (rows.map rowKey).dedup

/-- The DedupFilter row transform: one retained row per key group at most. -/
def dedup (rows : List Row) : List Row :=
  (dedupKeys rows).flatMap (fun k => pickRep (groupFor rows k))

/-- The `sort` stage including its failure mode: `pd.concat(keep)` raises
`ValueError: No objects to concatenate` exactly when `keep` is empty, which
happens exactly when the input has zero rows (no groups). -/
def dedupRun (rows : List Row) : Except String (List Row) :=
  match rows with
  | [] => Except.error "No objects to concatenate"
  | _ :: _ => Except.ok (dedup rows)

/-- Row constructor for concrete test data: only the key and the observed
travel time vary, the remaining fields are fixed. -/
def mkRow (sb stb : ℤ) (tt : ℚ) : Row :=
  ⟨sb, stb, 0, 0, 0, 0, 0, 0, 0, tt, 0, 1⟩

/-- An odd-sized group: travel times 1.0, 2.0, 3.0 under one key. -/
def exOdd : List Row := [mkRow 5 7 1, mkRow 5 7 2, mkRow 5 7 3]

/-- An even-sized group whose two central values differ: 1.0 and 2.0. -/
def exEven : List Row := [mkRow 5 7 1, mkRow 5 7 2]

theorem flatMap_congr_mem {α β : Type} {l : List α} {f g : α → List β}
    (h : ∀ a ∈ l, f a = g a) : l.flatMap f = l.flatMap g := by
  induction l with
  | nil => rfl
  | cons a t ih =>
    rw [List.flatMap_cons, List.flatMap_cons, h a (List.mem_cons_self a t),
      ih fun x hx => h x (List.mem_cons_of_mem a hx)]

theorem mem_of_mem_pickRep {g : List Row} {r : Row} (h : r ∈ pickRep g) :
    r ∈ g ∧ r.observed_tt = medianQ (g.map Row.observed_tt) := by
  have h2 := List.mem_filter.mp (List.mem_of_mem_take h)
  exact ⟨h2.1, of_decide_eq_true h2.2⟩

theorem length_pickRep (g : List Row) : (pickRep g).length ≤ 1 :=
  List.length_take_le 1 _

theorem rowKey_of_mem_groupFor {rows : List Row} {k : Key} {r : Row}
    (h : r ∈ groupFor rows k) : rowKey r = k :=
  of_decide_eq_true (List.mem_filter.mp h).2

theorem filter_key_flatMap (ks : List Key) (f : Key → List Row) (k : Key)
    (hf : ∀ k2, ∀ r ∈ f k2, rowKey r = k2) (hk : ks.Nodup) :
    (ks.flatMap f).filter (fun r => decide (rowKey r = k)) =
      if k ∈ ks then f k else [] := by
  induction ks with
  | nil => simp
  | cons a t ih =>
    rcases List.nodup_cons.mp hk with ⟨ha, ht⟩
    rw [List.flatMap_cons, List.filter_append, ih ht]
    by_cases hak : k = a
    · subst hak
      have h1 : (f k).filter (fun r => decide (rowKey r = k)) = f k :=
        List.filter_eq_self.mpr fun r hr => decide_eq_true (hf k r hr)
      rw [h1, if_neg ha, if_pos (List.mem_cons_self k t), List.append_nil]
    · have h1 : (f a).filter (fun r => decide (rowKey r = k)) = [] :=
        List.filter_eq_nil_iff.mpr fun r hr => by
          simp only [decide_eq_true_eq]
          rw [hf a r hr]
          exact fun he => hak he.symm
      rw [h1, List.nil_append]
      by_cases hkt : k ∈ t
      · rw [if_pos hkt, if_pos (List.mem_cons_of_mem a hkt)]
      · rw [if_neg hkt, if_neg (by
          intro hc
          rcases List.mem_cons.mp hc with h | h
          · exact hak h
          · exact hkt h)]

theorem mem_dedupKeys {rows : List Row} {k : Key} :
    k ∈ dedupKeys rows ↔ k ∈ rows.map rowKey := by
  unfold dedupKeys sortKeys
  rw [List.mem_insertionSort, List.mem_dedup]

theorem nodup_dedupKeys (rows : List Row) : (dedupKeys rows).Nodup :=
  (List.perm_insertionSort keyLe _).nodup_iff.mpr (List.nodup_dedup _)

theorem sorted_dedupKeys (rows : List Row) :
    List.Sorted keyLe (dedupKeys rows) :=
  List.sorted_insertionSort keyLe _

theorem rowKey_of_mem_pick_group {rows : List Row} {k : Key} {r : Row}
    (h : r ∈ pickRep (groupFor rows k)) : rowKey r = k :=
  rowKey_of_mem_groupFor (mem_of_mem_pickRep h).1

/-- Filtering the dedup output by a key isolates that key's retained rows. -/
theorem dedup_filter_key (rows : List Row) (k : Key) :
    (dedup rows).filter (fun r => decide (rowKey r = k)) =
      if k ∈ rows.map rowKey then pickRep (groupFor rows k) else [] := by
  unfold dedup
  rw [filter_key_flatMap _ _ _ (fun k2 r hr => rowKey_of_mem_pick_group hr)
    (nodup_dedupKeys rows)]
  by_cases hm : k ∈ rows.map rowKey
  · rw [if_pos (mem_dedupKeys.mpr hm), if_pos hm]
  · rw [if_neg (fun hc => hm (mem_dedupKeys.mp hc)), if_neg hm]

/-- C1: DedupFilter groups rows by the (source_block, station_block) key and,
per group, retains exactly one row whose `observed_tt` equals the group's
median when such a row exists, and zero rows for that group otherwise; in
particular the odd group with travel times 1.0, 2.0, 3.0 yields exactly the
2.0 row, and the even group with travel times 1.0 and 2.0 (median 1.5,
matching no row) yields no row. -/
theorem C1_dedup_median_selection :
    (∀ (rows : List Row) (k : Key),
      ((∃ r ∈ groupFor rows k,
          r.observed_tt = medianQ ((groupFor rows k).map Row.observed_tt)) →
        ∃ r ∈ groupFor rows k,
          r.observed_tt = medianQ ((groupFor rows k).map Row.observed_tt) ∧
          (dedup rows).filter (fun x => decide (rowKey x = k)) = [r]) ∧
      ((¬ ∃ r ∈ groupFor rows k,
          r.observed_tt = medianQ ((groupFor rows k).map Row.observed_tt)) →
        (dedup rows).filter (fun x => decide (rowKey x = k)) = [])) ∧
    dedup exOdd = [mkRow 5 7 2] ∧
    dedup exEven = [] := by
  refine ⟨fun rows k => ⟨?_, ?_⟩, by with_unfolding_all rfl,
    by with_unfolding_all rfl⟩
  · rintro ⟨r, hr, htt⟩
    have hm : k ∈ rows.map rowKey := by
      rw [← rowKey_of_mem_groupFor hr]
      exact List.mem_map_of_mem rowKey (List.mem_of_mem_filter hr)
    rw [dedup_filter_key, if_pos hm]
    unfold pickRep
    cases hfl : (groupFor rows k).filter (fun x =>
        decide (x.observed_tt = medianQ ((groupFor rows k).map
          Row.observed_tt))) with
    | nil =>
      exfalso
      have := List.filter_eq_nil_iff.mp hfl r hr
      rw [decide_eq_true_eq] at this
      exact this htt
    | cons a l =>
      have ha := List.mem_filter.mp (hfl ▸ List.mem_cons_self a l)
      exact ⟨a, ha.1, of_decide_eq_true ha.2, rfl⟩
  · intro hno
    rw [dedup_filter_key]
    by_cases hm : k ∈ rows.map rowKey
    · rw [if_pos hm]
      unfold pickRep
      rw [List.filter_eq_nil_iff.mpr fun r hr => by
        rw [decide_eq_true_eq]
        exact fun htt => hno ⟨r, hr, htt⟩]
      rfl
    · rw [if_neg hm]

theorem C1_witness :
    ∃ r ∈ groupFor exOdd (5, 7),
      r.observed_tt = medianQ ((groupFor exOdd (5, 7)).map Row.observed_tt) ∧
      (dedup exOdd).filter (fun x => decide (rowKey x = (5, 7))) = [r] :=
  (C1_dedup_median_selection.1 exOdd (5, 7)).1
    (of_decide_eq_true (by with_unfolding_all rfl))

theorem medianQ_singleton (a : ℚ) : medianQ [a] = a := by
  simp [medianQ]

theorem pickRep_singleton (r : Row) : pickRep [r] = [r] := by
  simp [pickRep, medianQ_singleton]

/-- Re-deduplicating a list with pairwise distinct keys, iterating its own
key list, returns the list unchanged. -/
theorem flatMap_pickRep_group_eq_self :
    ∀ S : List Row, (S.map rowKey).Nodup →
      (S.map rowKey).flatMap (fun k => pickRep (groupFor S k)) = S := by
  intro S
  induction S with
  | nil => intro h; rfl
  | cons s t ih =>
    intro h
    have h1 : rowKey s ∉ t.map rowKey ∧ (t.map rowKey).Nodup := by
      simpa [List.nodup_cons] using h
    have hg0 : groupFor t (rowKey s) = [] :=
      List.filter_eq_nil_iff.mpr fun r hr => by
        rw [decide_eq_true_eq]
        exact fun he => h1.1 (he ▸ List.mem_map_of_mem rowKey hr)
    have hgs : groupFor (s :: t) (rowKey s) = [s] := by
      unfold groupFor
      rw [List.filter_cons, if_pos (by rw [decide_eq_true_eq])]
      rw [show t.filter (fun r => decide (rowKey r = rowKey s)) =
        groupFor t (rowKey s) from rfl, hg0]
    have hcong : ∀ k ∈ t.map rowKey,
        pickRep (groupFor (s :: t) k) = pickRep (groupFor t k) := by
      intro k hk
      have hne : rowKey s ≠ k := fun he => h1.1 (he ▸ hk)
      have : groupFor (s :: t) k = groupFor t k := by
        unfold groupFor
        rw [List.filter_cons, if_neg (by
          rw [decide_eq_true_eq]
          exact fun hc => hne hc)]
      rw [this]
    rw [List.map_cons, List.flatMap_cons, hgs, pickRep_singleton,
      flatMap_congr_mem hcong, ih h1.2, List.singleton_append]

theorem map_rowKey_flatMap_sublist (ks : List Key) (f : Key → List Row)
    (hf : ∀ k2, ∀ r ∈ f k2, rowKey r = k2)
    (hlen : ∀ k2, (f k2).length ≤ 1) :
    ((ks.flatMap f).map rowKey).Sublist ks := by
  induction ks with
  | nil => simp
  | cons a t ih =>
    rw [List.flatMap_cons, List.map_append]
    cases hfa : f a with
    | nil => exact List.Sublist.cons a (by simpa using ih)
    | cons r rest =>
      have hr0 : rest = [] := by
        have := hlen a
        rw [hfa] at this
        simpa using this
      subst hr0
      have hkey : rowKey r = a := hf a r (hfa ▸ List.mem_cons_self r [])
      rw [List.map_cons, List.map_nil]
      simpa [hkey] using List.Sublist.cons₂ a ih

theorem keys_dedup_sublist (rows : List Row) :
    ((dedup rows).map rowKey).Sublist (dedupKeys rows) :=
  map_rowKey_flatMap_sublist _ _
    (fun _ _ hr => rowKey_of_mem_pick_group hr)
    (fun _ => length_pickRep _)

/-- The dedup transform is idempotent as a pure row-set transform. -/
theorem dedup_idem (rows : List Row) : dedup (dedup rows) = dedup rows := by
  have h1 : ((dedup rows).map rowKey).Nodup :=
    (keys_dedup_sublist rows).nodup (nodup_dedupKeys rows)
  have h2 : List.Sorted keyLe ((dedup rows).map rowKey) :=
    List.Pairwise.sublist (keys_dedup_sublist rows) (sorted_dedupKeys rows)
  have hk : dedupKeys (dedup rows) = (dedup rows).map rowKey := by
    unfold dedupKeys sortKeys
    rw [List.dedup_eq_self.mpr h1, h2.insertionSort_eq]
  have hdef : dedup (dedup rows) = (dedupKeys (dedup rows)).flatMap
      (fun k => pickRep (groupFor (dedup rows) k)) := rfl
  rw [hdef, hk, flatMap_pickRep_group_eq_self _ h1]

/-- C4 counterexample: on the even group with travel times 1.0 and 2.0 the
first application of the dedup stage succeeds with an empty row set, and the
second application fails with the empty-input concatenation error instead of
returning that empty row set, so `dedup(dedup R)) == dedup(R)` fails for this
`R` in the pipeline. -/
theorem C4_counterexample :
    dedupRun exEven = Except.ok [] ∧
    Except.bind (dedupRun exEven) dedupRun =
      Except.error "No objects to concatenate" ∧
    Except.bind (dedupRun exEven) dedupRun ≠ dedupRun exEven := by
  have e1 : dedupRun exEven = Except.ok [] := by with_unfolding_all rfl
  have e2 : Except.bind (dedupRun exEven) dedupRun =
      Except.error "No objects to concatenate" := by with_unfolding_all rfl
  refine ⟨e1, e2, ?_⟩
  rw [e2, e1]
  intro h
  exact Except.noConfusion h

/-- C4 (amended): DedupFilter is idempotent on every row set whose single
application yields at least one row: re-running the dedup stage on such
output returns it unchanged.  When `dedup(R)` is empty (an even-median group
or empty input), the second application instead fails with the stage's
empty-input concatenation error. -/
theorem C4_dedup_idempotent (rows : List Row) (h : dedup rows ≠ []) :
    dedupRun (dedup rows) = Except.ok (dedup rows) := by
  cases hc : dedup rows with
  | nil => exact absurd hc h
  | cons a t =>
    have hrun : dedupRun (a :: t) = Except.ok (dedup (a :: t)) := rfl
    rw [hrun, ← hc, dedup_idem, hc]

theorem C4_witness :
    dedup exOdd ≠ [] ∧ dedupRun (dedup exOdd) = Except.ok (dedup exOdd) := by
  have hne : dedup exOdd ≠ [] :=
    of_decide_eq_true (by with_unfolding_all rfl)
  exact ⟨hne, C4_dedup_idempotent exOdd hne⟩

/-- C10: applied to an empty row set, the dedup stage does not return an
empty row set: with zero groups the keep-list handed to the concatenation is
empty and the stage raises the empty-concatenation error. -/
theorem C10_empty_input_error :
    dedupRun [] = Except.error "No objects to concatenate" := rfl

/-! ## PhaseMatcher: the `match` command

The `match` command inner-joins the key columns of the two deduplicated row
sets (`blocks`), then inner-joins each row set with `blocks` on the key.
`pd.merge(..., how=..)` with `how` inner produces, for each left row in left
order, one output row per matching right row; the embedding reproduces this
multiplicity exactly.  Since the right side of the final merges contributes
only the two key columns, each output row is the unchanged left row. -/

/-- Embedding of `blocks = pd.merge(p_arr[keys], s_arr[keys], inner, on=keys)`:
for each P key in order, one copy per equal S key. -/
def matchBlocks (p_arr s_arr : List Row) : List Key :=
  (p_arr.map rowKey).flatMap fun k =>
    ((s_arr.map rowKey).filter (fun k2 => decide (k2 = k))).map fun _ => k

/-- Embedding of `pd.merge(arr, blocks, inner, on=keys)[column_names]`:
for each row of `arr` in order, one copy per equal key in `blocks`. -/
def matchRows (arr : List Row) (blocks : List Key) : List Row :=
  arr.flatMap fun r =>
    (blocks.filter (fun k => decide (k = rowKey r))).map fun _ => r

/-- The matched P output of the `match` command. -/
def matched_P (p_arr s_arr : List Row) : List Row :=
  matchRows p_arr (matchBlocks p_arr s_arr)

/-- The matched S output of the `match` command. -/
def matched_S (p_arr s_arr : List Row) : List Row :=
  matchRows s_arr (matchBlocks p_arr s_arr)

theorem filter_eq_key_of_nodup {l : List Key} (h : l.Nodup) (k : Key) :
    l.filter (fun k2 => decide (k2 = k)) = if k ∈ l then [k] else [] := by
  induction l with
  | nil => rfl
  | cons a t ih =>
    rcases List.nodup_cons.mp h with ⟨ha, ht⟩
    rw [List.filter_cons]
    by_cases hak : a = k
    · subst hak
      rw [if_pos (by rw [decide_eq_true_eq]), ih ht, if_neg ha,
        if_pos (List.mem_cons_self a t)]
    · rw [if_neg (by rw [decide_eq_true_eq]; exact hak), ih ht]
      by_cases hkt : k ∈ t
      · rw [if_pos hkt, if_pos (List.mem_cons_of_mem a hkt)]
      · rw [if_neg hkt, if_neg (by
          intro hc
          rcases List.mem_cons.mp hc with h1 | h1
          · exact hak h1.symm
          · exact hkt h1)]

theorem flatMap_if_filter {α : Type} (l : List α) (p : α → Bool) :
    (l.flatMap fun a => if p a = true then [a] else []) = l.filter p := by
  induction l with
  | nil => rfl
  | cons a t ih =>
    rw [List.flatMap_cons, List.filter_cons, ih]
    by_cases hp : p a = true
    · rw [if_pos hp, if_pos hp, List.singleton_append]
    · rw [if_neg hp, if_neg hp, List.nil_append]

theorem matchBlocks_eq (p_arr s_arr : List Row)
    (hB : (s_arr.map rowKey).Nodup) :
    matchBlocks p_arr s_arr =
      (p_arr.map rowKey).filter (fun k => decide (k ∈ s_arr.map rowKey)) := by
  unfold matchBlocks
  rw [← flatMap_if_filter]
  apply flatMap_congr_mem
  intro k _
  rw [filter_eq_key_of_nodup hB k]
  by_cases hm : k ∈ s_arr.map rowKey
  · rw [if_pos hm, if_pos (decide_eq_true hm)]
    rfl
  · rw [if_neg hm, if_neg (by rw [decide_eq_true_eq]; exact hm)]
    rfl

theorem matchRows_eq (xs : List Row) (blocks : List Key) (hb : blocks.Nodup) :
    matchRows xs blocks = xs.filter (fun r => decide (rowKey r ∈ blocks)) := by
  unfold matchRows
  rw [← flatMap_if_filter]
  apply flatMap_congr_mem
  intro r _
  rw [filter_eq_key_of_nodup hb (rowKey r)]
  by_cases hm : rowKey r ∈ blocks
  · rw [if_pos hm, if_pos (decide_eq_true hm)]
    rfl
  · rw [if_neg hm, if_neg (by rw [decide_eq_true_eq]; exact hm)]
    rfl

theorem matched_P_eq (p_arr s_arr : List Row)
    (hA : (p_arr.map rowKey).Nodup) (hB : (s_arr.map rowKey).Nodup) :
    matched_P p_arr s_arr =
      p_arr.filter (fun r => decide (rowKey r ∈ s_arr.map rowKey)) := by
  unfold matched_P
  rw [matchBlocks_eq p_arr s_arr hB, matchRows_eq _ _ (hA.filter _)]
  apply List.filter_congr
  intro r hr
  rw [decide_eq_decide]
  constructor
  · intro h
    exact of_decide_eq_true (List.mem_filter.mp h).2
  · intro h
    exact List.mem_filter.mpr
      ⟨List.mem_map_of_mem rowKey hr, decide_eq_true h⟩

theorem matched_S_eq (p_arr s_arr : List Row)
    (hA : (p_arr.map rowKey).Nodup) (hB : (s_arr.map rowKey).Nodup) :
    matched_S p_arr s_arr =
      s_arr.filter (fun r => decide (rowKey r ∈ p_arr.map rowKey)) := by
  unfold matched_S
  rw [matchBlocks_eq p_arr s_arr hB, matchRows_eq _ _ (hA.filter _)]
  apply List.filter_congr
  intro r hr
  rw [decide_eq_decide]
  constructor
  · intro h
    exact (List.mem_filter.mp h).1
  · intro h
    exact List.mem_filter.mpr
      ⟨h, decide_eq_true (List.mem_map_of_mem rowKey hr)⟩

/-! ## ArrivalExtractor and EventBatchProcessor

`process_event` in `cluster.py`: derive the event number from the creation
timestamp, read the preferred origin (when the event has none,
`event.preferred_origin()` yields `None` and the subsequent attribute access
raises, modelled as an `Except.error`), compute the event block, then per
arrival: skip unknown stations, skip distances over 90 degrees, compute the
station block, and write a row to the P or S sink for arrivals whose phase
is one of the configured pair.  `locations2degrees` is an external geodetic
collaborator, passed in as the function `dist`.  `process_many_events` runs
`process_event` over the batch with no exception handling, so a per-event
error propagates and aborts the remaining events. -/

/-- A station record: latitude and longitude (elevation unused). -/
structure Station where
  latitude : ℚ
  longitude : ℚ
deriving DecidableEq

/-- An arrival, with its pick's station code and time flattened in. -/
structure Arrival where
  station_code : String
  phase : String
  time_residual : ℚ
  pick_time : ℚ
deriving DecidableEq

/-- A preferred origin with its arrivals. -/
structure Origin where
  latitude : ℚ
  longitude : ℚ
  depth : ℚ
  time : ℚ
  arrivals : List Arrival
deriving DecidableEq

/-- An event: creation timestamp and optional preferred origin. -/
structure Event where
  creation_time : ℚ
  preferred_origin : Option Origin
deriving DecidableEq

/-- Python `int(...)`: truncation toward zero. -/
def truncQ (q : ℚ) : ℤ := if 0 ≤ q then ⌊q⌋ else ⌈q⌉

/-- The per-arrival body of the loop in `process_event`, accumulating the
rows written to the P sink and the S sink. -/
def processArrival (dist : ℚ → ℚ → ℚ → ℚ → ℚ)
    (stations : String → Option Station) (dx dy dz : ℚ) (nx ny : ℤ)
    (p_type s_type : String) (origin : Origin) (event_block ev_number : ℤ)
    (acc : List Row × List Row) (arr : Arrival) : List Row × List Row :=
  match stations arr.station_code with
  | none => acc
  | some sta =>
    let degrees_to_source :=
      dist origin.latitude origin.longitude sta.latitude sta.longitude
    if 90 < degrees_to_source then acc
    else
      let station_block := find_block dx dy dz nx ny sta.latitude
        sta.longitude 0
      if arr.phase = p_type ∨ arr.phase = s_type then
        let row : Row := ⟨event_block, station_block, arr.time_residual,
          ev_number, origin.longitude, origin.latitude, origin.depth,
          sta.longitude, sta.latitude, arr.pick_time - origin.time,
          degrees_to_source, if arr.phase = p_type then 1 else 2⟩
        if arr.phase = p_type then (acc.1 ++ [row], acc.2)
        else (acc.1, acc.2 ++ [row])
      else acc

/-- Embedding of `process_event`: the pair of row lists written to the two
sinks, or the error escaping when the event has no preferred origin. -/
def processEvent (dist : ℚ → ℚ → ℚ → ℚ → ℚ)
    (stations : String → Option Station) (nx ny : ℤ) (dz : ℚ)
    (p_type s_type : String) (event : Event) :
    Except String (List Row × List Row) :=
  match event.preferred_origin with
  | none =>
    Except.error "AttributeError: NoneType object has no attribute latitude"
  | some origin =>
    let ev_number := truncQ (event.creation_time * 1000000)
    let dx : ℚ := 360 / (nx : ℚ)
    let dy : ℚ := 180 / (ny : ℚ)
    let event_block := find_block dx dy dz nx ny origin.latitude
      origin.longitude origin.depth
    Except.ok (origin.arrivals.foldl
      (processArrival dist stations dx dy dz nx ny p_type s_type origin
        event_block ev_number)
      ([], []))

/-- The event loop of `process_many_events`, threading the two sinks; an
exception from one event propagates, leaving the rest unprocessed. -/
def processEventsFrom (dist : ℚ → ℚ → ℚ → ℚ → ℚ)
    (stations : String → Option Station) (nx ny : ℤ) (dz : ℚ)
    (p_type s_type : String) :
    List Event → List Row × List Row → Except String (List Row × List Row)
  | [], acc => Except.ok acc
  | e :: rest, acc =>
    match processEvent dist stations nx ny dz p_type s_type e with
    | Except.error m => Except.error m
    | Except.ok (ps, ss) =>
      processEventsFrom dist stations nx ny dz p_type s_type rest
        (acc.1 ++ ps, acc.2 ++ ss)

/-- Embedding of `process_many_events` (with the two sinks as the result). -/
def processManyEvents (dist : ℚ → ℚ → ℚ → ℚ → ℚ)
    (stations : String → Option Station) (nx ny : ℤ) (dz : ℚ)
    (p_type s_type : String) (events : List Event) :
    Except String (List Row × List Row) :=
  processEventsFrom dist stations nx ny dz p_type s_type events ([], [])

/-- P rows with keys (1,1) and (1,2). -/
def exMP : List Row := [mkRow 1 1 10, mkRow 1 2 11]

/-- S rows with keys (1,2) and (2,2). -/
def exMS : List Row := [mkRow 1 2 20, mkRow 2 2 21]

/-- C2: for deduplicated inputs (pairwise distinct keys on each side),
PhaseMatcher returns exactly the rows of each side whose key lies in the key
intersection, each row unchanged; hence the outputs are no longer than the
inputs, every output key occurs in both inputs, and on P keys (1,1),(1,2)
against S keys (1,2),(2,2) each output is exactly the one row with key
(1,2). -/
theorem C2_match_intersection (p_arr s_arr : List Row)
    (hA : (p_arr.map rowKey).Nodup) (hB : (s_arr.map rowKey).Nodup) :
    (matched_P p_arr s_arr =
      p_arr.filter (fun r => decide (rowKey r ∈ s_arr.map rowKey))) ∧
    (matched_S p_arr s_arr =
      s_arr.filter (fun r => decide (rowKey r ∈ p_arr.map rowKey))) ∧
    (matched_P p_arr s_arr).length ≤ p_arr.length ∧
    (matched_S p_arr s_arr).length ≤ s_arr.length ∧
    (∀ r ∈ matched_P p_arr s_arr,
      rowKey r ∈ p_arr.map rowKey ∧ rowKey r ∈ s_arr.map rowKey) ∧
    (∀ r ∈ matched_S p_arr s_arr,
      rowKey r ∈ p_arr.map rowKey ∧ rowKey r ∈ s_arr.map rowKey) ∧
    matched_P exMP exMS = [mkRow 1 2 11] ∧
    matched_S exMP exMS = [mkRow 1 2 20] := by
  have hP := matched_P_eq p_arr s_arr hA hB
  have hS := matched_S_eq p_arr s_arr hA hB
  refine ⟨hP, hS, ?_, ?_, ?_, ?_, by with_unfolding_all rfl,
    by with_unfolding_all rfl⟩
  · rw [hP]
    exact List.length_filter_le _ _
  · rw [hS]
    exact List.length_filter_le _ _
  · intro r hr
    rw [hP] at hr
    rcases List.mem_filter.mp hr with ⟨h1, h2⟩
    exact ⟨List.mem_map_of_mem rowKey h1, of_decide_eq_true h2⟩
  · intro r hr
    rw [hS] at hr
    rcases List.mem_filter.mp hr with ⟨h1, h2⟩
    exact ⟨of_decide_eq_true h2, List.mem_map_of_mem rowKey h1⟩

/-- Fixed external distance returning exactly 90 degrees. -/
def dist90 : ℚ → ℚ → ℚ → ℚ → ℚ := fun _ _ _ _ => 90

/-- Fixed external distance returning 90.01 degrees. -/
def dist9001 : ℚ → ℚ → ℚ → ℚ → ℚ := fun _ _ _ _ => 9001 / 100

/-- A station at latitude 0, longitude 0. -/
def staA : Station := ⟨0, 0⟩

/-- A one-entry station lookup. -/
def exStations : String → Option Station :=
  fun c => if c = "AAA" then some staA else none

/-- A P arrival at the known station, pick time 10. -/
def arrP : Arrival := ⟨"AAA", "P", 0, 10⟩

/-- An origin at (0, 0), depth 0, time 0, with one P arrival. -/
def origin90 : Origin := ⟨0, 0, 0, 0, [arrP]⟩

/-- An event with that preferred origin. -/
def ev90 : Event := ⟨0, some origin90⟩

/-- An event with no preferred origin. -/
def badEvent : Event := ⟨0, none⟩

/-- The row `process_event` emits for `ev90` on the default grid: both
blocks are 519841 (lat 0, lon 0, depth 0), observed travel time 10. -/
def row90 : Row := ⟨519841, 519841, 0, 0, 0, 0, 0, 0, 0, 10, 90, 1⟩

theorem processArrival_deg (dist : ℚ → ℚ → ℚ → ℚ → ℚ)
    (stations : String → Option Station) (dx dy dz : ℚ) (nx ny : ℤ)
    (p_type s_type : String) (origin : Origin) (event_block ev_number : ℤ)
    (acc : List Row × List Row) (arr : Arrival)
    (h1 : ∀ r ∈ acc.1, r.locations2degrees ≤ 90)
    (h2 : ∀ r ∈ acc.2, r.locations2degrees ≤ 90) :
    (∀ r ∈ (processArrival dist stations dx dy dz nx ny p_type s_type origin
        event_block ev_number acc arr).1, r.locations2degrees ≤ 90) ∧
    (∀ r ∈ (processArrival dist stations dx dy dz nx ny p_type s_type origin
        event_block ev_number acc arr).2, r.locations2degrees ≤ 90) := by
  unfold processArrival
  cases stations arr.station_code with
  | none => exact ⟨h1, h2⟩
  | some sta =>
    dsimp only
    split
    · exact ⟨h1, h2⟩
    · rename_i hdeg
      rw [not_lt] at hdeg
      split
      · split
        · refine ⟨?_, h2⟩
          intro r hr
          rcases List.mem_append.mp hr with h | h
          · exact h1 r h
          · rw [List.mem_singleton.mp h]
            exact hdeg
        · refine ⟨h1, ?_⟩
          intro r hr
          rcases List.mem_append.mp hr with h | h
          · exact h2 r h
          · rw [List.mem_singleton.mp h]
            exact hdeg
      · exact ⟨h1, h2⟩

theorem foldl_processArrival_deg (dist : ℚ → ℚ → ℚ → ℚ → ℚ)
    (stations : String → Option Station) (dx dy dz : ℚ) (nx ny : ℤ)
    (p_type s_type : String) (origin : Origin) (event_block ev_number : ℤ) :
    ∀ (l : List Arrival) (acc : List Row × List Row),
      (∀ r ∈ acc.1, r.locations2degrees ≤ 90) →
      (∀ r ∈ acc.2, r.locations2degrees ≤ 90) →
      (∀ r ∈ (l.foldl (processArrival dist stations dx dy dz nx ny p_type
          s_type origin event_block ev_number) acc).1,
        r.locations2degrees ≤ 90) ∧
      (∀ r ∈ (l.foldl (processArrival dist stations dx dy dz nx ny p_type
          s_type origin event_block ev_number) acc).2,
        r.locations2degrees ≤ 90) := by
  intro l
  induction l with
  | nil => exact fun acc h1 h2 => ⟨h1, h2⟩
  | cons a t ih =>
    intro acc h1 h2
    rw [List.foldl_cons]
    have h := processArrival_deg dist stations dx dy dz nx ny p_type s_type
      origin event_block ev_number acc a h1 h2
    exact ih _ h.1 h.2

/-- C7: every row `process_event` emits has geodetic distance at most 90
degrees; an arrival at exactly 90.0 degrees is retained (it produces a row)
while one at 90.01 degrees is discarded (it produces no row). -/
theorem C7_distance_gate :
    (∀ (dist : ℚ → ℚ → ℚ → ℚ → ℚ) (stations : String → Option Station)
        (nx ny : ℤ) (dz : ℚ) (p_type s_type : String) (e : Event)
        (out : List Row × List Row),
      processEvent dist stations nx ny dz p_type s_type e = Except.ok out →
      (∀ r ∈ out.1, r.locations2degrees ≤ 90) ∧
      (∀ r ∈ out.2, r.locations2degrees ≤ 90)) ∧
    processEvent dist90 exStations 1440 720 25 "P" "S" ev90 =
      Except.ok ([row90], []) ∧
    processEvent dist9001 exStations 1440 720 25 "P" "S" ev90 =
      Except.ok ([], []) := by
  refine ⟨?_, by with_unfolding_all rfl, by with_unfolding_all rfl⟩
  intro dist stations nx ny dz p_type s_type e out h
  unfold processEvent at h
  cases ho : e.preferred_origin with
  | none =>
    rw [ho] at h
    exact Except.noConfusion h
  | some origin =>
    rw [ho] at h
    have hout := Except.ok.inj h
    rw [← hout]
    exact foldl_processArrival_deg _ _ _ _ _ _ _ _ _ _ _ _
      origin.arrivals ([], []) (by intro r hr; cases hr)
      (by intro r hr; cases hr)

theorem C7_witness : row90.locations2degrees ≤ 90 :=
  ((C7_distance_gate.1 dist90 exStations 1440 720 25 "P" "S" ev90
    ([row90], []) (by with_unfolding_all rfl)).1 row90
    (List.mem_singleton.mpr rfl))

/-- C5: the batch processor has no per-event exception handling, so an event
without a preferred origin aborts the whole batch: on the batch
[badEvent, ev90] the attribute error escapes and the remaining (valid) event
contributes nothing, although the valid event alone yields a row. -/
theorem C5_batch_aborts_on_event_failure :
    processManyEvents dist90 exStations 1440 720 25 "P" "S"
        [badEvent, ev90] =
      Except.error "AttributeError: NoneType object has no attribute latitude"
      ∧
    processManyEvents dist90 exStations 1440 720 25 "P" "S" [ev90] =
      Except.ok ([row90], []) := by
  constructor
  · with_unfolding_all rfl
  · with_unfolding_all rfl

theorem pyRound_nonneg {q : ℚ} (h : 0 ≤ q) : 0 ≤ pyRound q := by
  have hf : (0 : ℤ) ≤ ⌊q⌋ := Int.floor_nonneg.mpr h
  simp only [pyRound]
  split
  · exact hf
  · split
    · omega
    · split
      · exact hf
      · omega

theorem lonNorm_nonneg {lon : ℚ} (h : -180 ≤ lon) : 0 ≤ lonNorm lon := by
  unfold lonNorm
  split <;> linarith

/-- For a positive grid and physically valid coordinates (latitude at most
90, longitude at least -180, nonnegative depth), `_find_block` as called by
`process_event` returns a positive block number. -/
theorem find_block_pos (nx ny : ℤ) (dz lat lon z : ℚ)
    (hnx : 0 < nx) (hny : 0 < ny) (hdz : 0 < dz)
    (hlat : lat ≤ 90) (hlon : -180 ≤ lon) (hz : 0 ≤ z) :
    0 < find_block (360 / (nx : ℚ)) (180 / (ny : ℚ)) dz nx ny lat lon z := by
  have hnxQ : (0 : ℚ) < (nx : ℚ) := by exact_mod_cast hnx
  have hnyQ : (0 : ℚ) < (ny : ℚ) := by exact_mod_cast hny
  have hdx : (0 : ℚ) < 360 / (nx : ℚ) := by positivity
  have hdy : (0 : ℚ) < 180 / (ny : ℚ) := by positivity
  have hi : 0 ≤ pyRound (lonNorm lon / (360 / (nx : ℚ))) :=
    pyRound_nonneg (div_nonneg (lonNorm_nonneg hlon) hdx.le)
  have hj : 0 ≤ pyRound ((90 - lat) / (180 / (ny : ℚ))) :=
    pyRound_nonneg (div_nonneg (by linarith) hdy.le)
  have hk : 0 ≤ pyRound (z / dz) := pyRound_nonneg (div_nonneg hz hdz.le)
  simp only [find_block, add_sub_cancel_right]
  have m1 : 0 ≤ pyRound (z / dz) * nx * ny :=
    mul_nonneg (mul_nonneg hk hnx.le) hny.le
  have m2 : 0 ≤ pyRound ((90 - lat) / (180 / (ny : ℚ))) * nx :=
    mul_nonneg hj hnx.le
  linarith

theorem processArrival_class (dist : ℚ → ℚ → ℚ → ℚ → ℚ)
    (stations : String → Option Station) (dz : ℚ) (nx ny : ℤ)
    (p_type s_type : String) (origin : Origin) (event_block ev_number : ℤ)
    (arrs0 : List Arrival)
    (hnx : 0 < nx) (hny : 0 < ny) (hdz : 0 < dz)
    (hsta : ∀ c sta, stations c = some sta → -90 ≤ sta.latitude ∧
      sta.latitude ≤ 90 ∧ -180 ≤ sta.longitude ∧ sta.longitude ≤ 180)
    (hev : 0 < event_block)
    (acc : List Row × List Row) (arr : Arrival) (harr : arr ∈ arrs0)
    (h1 : ∀ r ∈ acc.1, 0 < r.source_block ∧ 0 < r.station_block ∧
      r.P_or_S = 1 ∧ ∃ a ∈ arrs0, a.phase = p_type ∧
        r.residual = a.time_residual)
    (h2 : ∀ r ∈ acc.2, 0 < r.source_block ∧ 0 < r.station_block ∧
      r.P_or_S = 2 ∧ ∃ a ∈ arrs0, a.phase = s_type ∧
        r.residual = a.time_residual) :
    (∀ r ∈ (processArrival dist stations (360 / (nx : ℚ)) (180 / (ny : ℚ))
        dz nx ny p_type s_type origin event_block ev_number acc arr).1,
      0 < r.source_block ∧ 0 < r.station_block ∧ r.P_or_S = 1 ∧
        ∃ a ∈ arrs0, a.phase = p_type ∧ r.residual = a.time_residual) ∧
    (∀ r ∈ (processArrival dist stations (360 / (nx : ℚ)) (180 / (ny : ℚ))
        dz nx ny p_type s_type origin event_block ev_number acc arr).2,
      0 < r.source_block ∧ 0 < r.station_block ∧ r.P_or_S = 2 ∧
        ∃ a ∈ arrs0, a.phase = s_type ∧ r.residual = a.time_residual) := by
  unfold processArrival
  cases hst : stations arr.station_code with
  | none => exact ⟨h1, h2⟩
  | some sta =>
    dsimp only
    rcases hsta arr.station_code sta hst with ⟨_, hb2, hb3, _⟩
    have hsb : 0 < find_block (360 / (nx : ℚ)) (180 / (ny : ℚ)) dz nx ny
        sta.latitude sta.longitude 0 :=
      find_block_pos nx ny dz sta.latitude sta.longitude 0 hnx hny hdz
        hb2 hb3 le_rfl
    split
    · exact ⟨h1, h2⟩
    · split
      · split
        · rename_i hp
          refine ⟨?_, h2⟩
          intro r hr
          rcases List.mem_append.mp hr with h | h
          · exact h1 r h
          · rw [List.mem_singleton.mp h]
            exact ⟨hev, hsb, by simp [hp], arr, harr, hp, rfl⟩
        · rename_i hph hp
          have hs : arr.phase = s_type := hph.resolve_left hp
          refine ⟨h1, ?_⟩
          intro r hr
          rcases List.mem_append.mp hr with h | h
          · exact h2 r h
          · rw [List.mem_singleton.mp h]
            exact ⟨hev, hsb, by simp [hp], arr, harr, hs, rfl⟩
      · exact ⟨h1, h2⟩

theorem foldl_processArrival_class (dist : ℚ → ℚ → ℚ → ℚ → ℚ)
    (stations : String → Option Station) (dz : ℚ) (nx ny : ℤ)
    (p_type s_type : String) (origin : Origin) (event_block ev_number : ℤ)
    (arrs0 : List Arrival)
    (hnx : 0 < nx) (hny : 0 < ny) (hdz : 0 < dz)
    (hsta : ∀ c sta, stations c = some sta → -90 ≤ sta.latitude ∧
      sta.latitude ≤ 90 ∧ -180 ≤ sta.longitude ∧ sta.longitude ≤ 180)
    (hev : 0 < event_block) :
    ∀ l : List Arrival, (∀ a ∈ l, a ∈ arrs0) →
    ∀ acc : List Row × List Row,
      (∀ r ∈ acc.1, 0 < r.source_block ∧ 0 < r.station_block ∧
        r.P_or_S = 1 ∧ ∃ a ∈ arrs0, a.phase = p_type ∧
          r.residual = a.time_residual) →
      (∀ r ∈ acc.2, 0 < r.source_block ∧ 0 < r.station_block ∧
        r.P_or_S = 2 ∧ ∃ a ∈ arrs0, a.phase = s_type ∧
          r.residual = a.time_residual) →
      (∀ r ∈ (l.foldl (processArrival dist stations (360 / (nx : ℚ))
          (180 / (ny : ℚ)) dz nx ny p_type s_type origin event_block
          ev_number) acc).1,
        0 < r.source_block ∧ 0 < r.station_block ∧ r.P_or_S = 1 ∧
          ∃ a ∈ arrs0, a.phase = p_type ∧ r.residual = a.time_residual) ∧
      (∀ r ∈ (l.foldl (processArrival dist stations (360 / (nx : ℚ))
          (180 / (ny : ℚ)) dz nx ny p_type s_type origin event_block
          ev_number) acc).2,
        0 < r.source_block ∧ 0 < r.station_block ∧ r.P_or_S = 2 ∧
          ∃ a ∈ arrs0, a.phase = s_type ∧ r.residual = a.time_residual) := by
  intro l
  induction l with
  | nil => exact fun _ acc h1 h2 => ⟨h1, h2⟩
  | cons a t ih =>
    intro hl acc h1 h2
    rw [List.foldl_cons]
    have h := processArrival_class dist stations dz nx ny p_type s_type
      origin event_block ev_number arrs0 hnx hny hdz hsta hev acc a
      (hl a (List.mem_cons_self a t)) h1 h2
    exact ih (fun x hx => hl x (List.mem_cons_of_mem a hx)) _ h.1 h.2

/-- C9: on a positive grid, with stations and the event origin at physically
valid coordinates (and nonnegative event depth), every row `process_event`
emits carries positive source and station block numbers; rows written to the
P sink have phase code 1 and stem from an arrival whose phase is the first
configured wave type, rows written to the S sink have phase code 2 and stem
from an arrival whose phase is the second; no other phase produces a row. -/
theorem C9_row_invariants (dist : ℚ → ℚ → ℚ → ℚ → ℚ)
    (stations : String → Option Station) (nx ny : ℤ) (dz : ℚ)
    (p_type s_type : String) (e : Event) (out : List Row × List Row)
    (hnx : 0 < nx) (hny : 0 < ny) (hdz : 0 < dz)
    (hsta : ∀ c sta, stations c = some sta → -90 ≤ sta.latitude ∧
      sta.latitude ≤ 90 ∧ -180 ≤ sta.longitude ∧ sta.longitude ≤ 180)
    (horg : ∀ o, e.preferred_origin = some o → o.latitude ≤ 90 ∧
      -180 ≤ o.longitude ∧ 0 ≤ o.depth)
    (h : processEvent dist stations nx ny dz p_type s_type e =
      Except.ok out) :
    (∀ r ∈ out.1, 0 < r.source_block ∧ 0 < r.station_block ∧
      r.P_or_S = 1 ∧ ∃ o, e.preferred_origin = some o ∧
        ∃ a ∈ o.arrivals, a.phase = p_type ∧
          r.residual = a.time_residual) ∧
    (∀ r ∈ out.2, 0 < r.source_block ∧ 0 < r.station_block ∧
      r.P_or_S = 2 ∧ ∃ o, e.preferred_origin = some o ∧
        ∃ a ∈ o.arrivals, a.phase = s_type ∧
          r.residual = a.time_residual) := by
  unfold processEvent at h
  cases ho : e.preferred_origin with
  | none =>
    rw [ho] at h
    exact Except.noConfusion h
  | some origin =>
    rw [ho] at h
    have hout := Except.ok.inj h
    rcases horg origin ho with ⟨ho1, ho2, ho3⟩
    have hev : 0 < find_block (360 / (nx : ℚ)) (180 / (ny : ℚ)) dz nx ny
        origin.latitude origin.longitude origin.depth :=
      find_block_pos nx ny dz origin.latitude origin.longitude origin.depth
        hnx hny hdz ho1 ho2 ho3
    have hfold := foldl_processArrival_class dist stations dz nx ny p_type
      s_type origin
      (find_block (360 / (nx : ℚ)) (180 / (ny : ℚ)) dz nx ny
        origin.latitude origin.longitude origin.depth)
      (truncQ (e.creation_time * 1000000))
      origin.arrivals hnx hny hdz hsta hev origin.arrivals
      (fun a ha => ha) ([], [])
      (by intro r hr; cases hr) (by intro r hr; cases hr)
    rw [← hout]
    constructor
    · intro r hr
      rcases hfold.1 r hr with ⟨a1, a2, a3, a, ha, hp, hres⟩
      exact ⟨a1, a2, a3, origin, rfl, a, ha, hp, hres⟩
    · intro r hr
      rcases hfold.2 r hr with ⟨a1, a2, a3, a, ha, hp, hres⟩
      exact ⟨a1, a2, a3, origin, rfl, a, ha, hp, hres⟩

theorem C9_witness :
    0 < row90.source_block ∧ 0 < row90.station_block ∧ row90.P_or_S = 1 := by
  have h := C9_row_invariants dist90 exStations 1440 720 25 "P" "S" ev90
    ([row90], []) (by norm_num) (by norm_num) (by norm_num)
    (by
      intro c sta hc
      unfold exStations at hc
      split at hc
      · rw [← Option.some.inj hc]
        refine ⟨?_, ?_, ?_, ?_⟩ <;> norm_num [staA]
      · exact Option.noConfusion hc)
    (by
      intro o ho
      rw [← Option.some.inj ho]
      refine ⟨?_, ?_, ?_⟩ <;> norm_num [origin90])
    (by with_unfolding_all rfl)
  rcases h.1 row90 (List.mem_singleton.mpr rfl) with ⟨a1, a2, a3, _⟩
  exact ⟨a1, a2, a3⟩

theorem C2_witness :
    (exMP.map rowKey).Nodup ∧ (exMS.map rowKey).Nodup ∧
    matched_P exMP exMS =
      exMP.filter (fun r => decide (rowKey r ∈ exMS.map rowKey)) :=
  ⟨of_decide_eq_true (by with_unfolding_all rfl),
    of_decide_eq_true (by with_unfolding_all rfl),
    (C2_match_intersection exMP exMS
      (of_decide_eq_true (by with_unfolding_all rfl))
      (of_decide_eq_true (by with_unfolding_all rfl))).1⟩

end Cluster
